import Mathlib

/-!
Verification of the comment/reply aggregation and ownership-guarded
mutation logic of the work-flow-connect repository.

The backend stores Jobs, Comments and Replies in relational tables.
We embed the tables as lists of rows, SQL ids and timestamps as `Nat`
(ids are UUID strings and timestamps are SQL timestamps in the source;
both only ever compared for equality resp. order), and each handler or
model function as a pure Lean function on an explicit database value.
Fallible paths (the JS try/catch blocks) are embedded by passing the
outcome of the underlying query as an explicit `DbResult` value.
-/

set_option maxHeartbeats 1000000

/-- A row of the `Comments` table (`commentModel.ensureTable`). -/
structure CommentRow where
  id : Nat
  content : String
  userId : Nat
  jobId : Nat
  createdAt : Nat
  updatedAt : Nat
  deriving DecidableEq, Repr

/-- A row of the `Replies` table (`commentModel.ensureRepliesTable`). -/
structure ReplyRow where
  id : Nat
  content : String
  userId : Nat
  commentId : Nat
  createdAt : Nat
  updatedAt : Nat
  deriving DecidableEq, Repr

/-- A row of the `Jobs` table (fields per the spec data model: a Job has
id, title, description, budget, category, skills, status, owner user id
and timestamps; budgets are numeric in the source (`parseFloat`), embedded
as `Int`). -/
structure JobRow where
  id : Nat
  title : String
  description : String
  budget : Int
  category : String
  skills : List String
  status : String
  userId : Nat
  createdAt : Nat
  updatedAt : Nat
  deriving DecidableEq, Repr

/-- A user row, as far as response enrichment needs it. -/
structure UserRow where
  id : Nat
  name : String
  avatar : Option String
  deriving DecidableEq, Repr

/-- The database state. -/
structure DB where
  jobs : List JobRow
  comments : List CommentRow
  replies : List ReplyRow
  users : List UserRow
  deriving DecidableEq, Repr

/-- One row of the result set of the `findByJobId` query
`SELECT c.*, r.id AS "replyId", ... FROM "Comments" c LEFT JOIN "Replies" r
ON c.id = r."commentId" WHERE c."jobId" = $1`.  The `c.*` columns are the
comment fields; the aliased reply columns are `none` when the left join
produced no matching reply. -/
structure JoinRow where
  id : Nat
  content : String
  userId : Nat
  jobId : Nat
  createdAt : Nat
  updatedAt : Nat
  reply : Option ReplyRow
  deriving DecidableEq, Repr

/-- The result row for comment `c` with (optional) joined reply columns. -/
def mkRow (c : CommentRow) (o : Option ReplyRow) : JoinRow :=
  ⟨c.id, c.content, c.userId, c.jobId, c.createdAt, c.updatedAt, o⟩

/-- The rows the left join produces for one comment: one row per matching
reply, or a single row with null reply columns when there is none. -/
def rowsFor (replies : List ReplyRow) (c : CommentRow) : List JoinRow :=
  match replies.filter (fun r => r.commentId = c.id) with
  | [] => [mkRow c none]
  | rs => rs.map fun r => mkRow c (some r)

/-- The unordered content of the left join
`Comments c LEFT JOIN Replies r ON c.id = r."commentId" WHERE c."jobId" = $1`. -/
def joinRows (comments : List CommentRow) (replies : List ReplyRow)
    (jobId : Nat) : List JoinRow :=
  (comments.filter (fun c => c.jobId = jobId)).flatMap (rowsFor replies)

/-- Ordering of the nullable `r."createdAt"` sort key, ascending with
nulls last (the PostgreSQL default for `ASC`). -/
def replyKeyLE : Option ReplyRow → Option ReplyRow → Prop
  | _, none => True
  | none, some _ => False
  | some r, some s => r.createdAt ≤ s.createdAt

instance : DecidableRel replyKeyLE := fun a b => by
  cases a <;> cases b <;> simp [replyKeyLE] <;> infer_instance

/-- The `ORDER BY c."createdAt" DESC, r."createdAt" ASC` comparison:
row `a` may come before row `b`. -/
def rowLE (a b : JoinRow) : Prop :=
  b.createdAt < a.createdAt ∨ (a.createdAt = b.createdAt ∧ replyKeyLE a.reply b.reply)

instance : DecidableRel rowLE := fun a b => by
  unfold rowLE; infer_instance

instance : IsTotal JoinRow rowLE where
  total a b := by
    rcases Nat.lt_trichotomy a.createdAt b.createdAt with h | h | h
    · exact Or.inr (Or.inl h)
    · cases ha : a.reply <;> cases hb : b.reply
      · exact Or.inl (Or.inr ⟨h, by simp [replyKeyLE, ha, hb]⟩)
      · exact Or.inr (Or.inr ⟨h.symm, by simp [replyKeyLE, ha, hb]⟩)
      · exact Or.inl (Or.inr ⟨h, by simp [replyKeyLE, ha, hb]⟩)
      · rename_i r s
        rcases Nat.le_total r.createdAt s.createdAt with hr | hr
        · exact Or.inl (Or.inr ⟨h, by simp [replyKeyLE, ha, hb, hr]⟩)
        · exact Or.inr (Or.inr ⟨h.symm, by simp [replyKeyLE, ha, hb, hr]⟩)
    · exact Or.inl (Or.inl h)

instance : IsTrans JoinRow rowLE where
  trans a b c hab hbc := by
    rcases hab with hab | ⟨hab, hab2⟩ <;> rcases hbc with hbc | ⟨hbc, hbc2⟩
    · exact Or.inl (hbc.trans hab)
    · exact Or.inl (hbc ▸ hab)
    · exact Or.inl (hab ▸ hbc)
    · refine Or.inr ⟨hab.trans hbc, ?_⟩
      cases ha : a.reply <;> cases hb : b.reply <;> cases hc : c.reply <;>
        simp_all [replyKeyLE] <;> omega

/-- The sorted result set of the `findByJobId` query. -/
def sortedJoinRows (db : DB) (jobId : Nat) : List JoinRow :=
  List.insertionSort rowLE (joinRows db.comments db.replies jobId)

/-- A grouped comment as produced by the aggregation loop: the comment
columns of the first row seen for this comment id, plus the accumulated
`replies` array. -/
structure CommentOut where
  id : Nat
  content : String
  userId : Nat
  jobId : Nat
  createdAt : Nat
  updatedAt : Nat
  replies : List ReplyRow
  deriving DecidableEq, Repr

/-- The comment object created on first sight of a comment id
(`commentMap.set(commentId, { ..., replies: [] })`). -/
def rowComment (row : JoinRow) : CommentOut :=
  ⟨row.id, row.content, row.userId, row.jobId, row.createdAt, row.updatedAt, []⟩

/-- `comment.replies.push(...)` guarded by the duplicate check
`comment.replies.some(reply => reply.id === row.replyId)`. -/
def attachReply (c : CommentOut) (r : ReplyRow) : CommentOut :=
  if c.replies.any (fun reply => reply.id = r.id) then c
  else { c with replies := c.replies ++ [r] }

/-- One iteration of the `result.rows.forEach` grouping loop: create the
comment entry if the map does not have this comment id yet, then, if the
row carries a reply, attach it to its comment.  The JS `Map` keyed by
comment id with insertion order is embedded as a list of comment objects
with pairwise-distinct ids. -/
def addRow (acc : List CommentOut) (row : JoinRow) : List CommentOut :=
  let acc2 := if acc.any (fun c => c.id = row.id) then acc else acc ++ [rowComment row]
  match row.reply with
  | none => acc2
  | some r => acc2.map fun c => if c.id = row.id then attachReply c r else c

/-- The whole grouping loop followed by `Array.from(commentMap.values())`. -/
def groupRows (rows : List JoinRow) : List CommentOut :=
  rows.foldl addRow []

/-- Outcome of a database query: either rows or a thrown error. -/
inductive DbResult (α : Type) where
  | ok (value : α)
  | err (message : String)
  deriving DecidableEq, Repr

namespace commentModel

/-- The body of `commentModel.findByJobId` given the outcome of the
query: on success the rows are grouped; the `catch` branch returns `[]`. -/
def findByJobIdRun (outcome : DbResult (List JoinRow)) : List CommentOut :=
  match outcome with
  | .ok rows => groupRows rows
  | .err _ => []

/-- `commentModel.findByJobId` on a database where the query succeeds. -/
def findByJobId (db : DB) (jobId : Nat) : List CommentOut :=
  findByJobIdRun (.ok (sortedJoinRows db jobId))

/-- Ascending `"createdAt"` order used by the replies query of
`commentModel.findById`. -/
def replyRowLE (r s : ReplyRow) : Prop := r.createdAt ≤ s.createdAt

instance : DecidableRel replyRowLE := fun r s => by
  unfold replyRowLE; infer_instance

/-- `commentModel.findById`: `SELECT * FROM "Comments" WHERE id = $1`
(first row or null), then its replies
`SELECT * FROM "Replies" WHERE "commentId" = $1 ORDER BY "createdAt" ASC`. -/
def findById (db : DB) (commentId : Nat) : Option CommentOut :=
  match db.comments.filter (fun c => c.id = commentId) with
  | [] => none
  | c :: _ =>
      some ⟨c.id, c.content, c.userId, c.jobId, c.createdAt, c.updatedAt,
        List.insertionSort replyRowLE (db.replies.filter (fun r => r.commentId = commentId))⟩

/-- `commentModel.delete`: `DELETE FROM "Replies" WHERE "commentId" = $1`,
then `DELETE FROM "Comments" WHERE id = $1`. -/
def del (db : DB) (commentId : Nat) : DB :=
  { db with
    replies := db.replies.filter (fun r => ¬ r.commentId = commentId),
    comments := db.comments.filter (fun c => ¬ c.id = commentId) }

/-- `commentModel.findReplyById`: `SELECT * FROM "Replies" WHERE id = $1`,
first row or null. -/
def findReplyById (db : DB) (replyId : Nat) : Option ReplyRow :=
  match db.replies.filter (fun r => r.id = replyId) with
  | [] => none
  | r :: _ => some r

/-- `commentModel.deleteReply`: `DELETE FROM "Replies" WHERE id = $1`. -/
def deleteReply (db : DB) (replyId : Nat) : DB :=
  { db with replies := db.replies.filter (fun r => ¬ r.id = replyId) }

end commentModel

namespace jobModel

/-- Modelled from the spec: `jobModel.findById` is not under `src/`; per
the spec, each handler "loads the entity by id", embedded as looking up
the first Jobs row with the given id. -/
def findById (jobs : List JobRow) (jobId : Nat) : Option JobRow :=
  match jobs.filter (fun j => j.id = jobId) with
  | [] => none
  | j :: _ => some j

/-- Modelled from the spec: `jobModel.create` is not under `src/`; per the
spec's data model it inserts a Job row owned by its creator, with the
fields the controller passes and a fresh id and timestamps supplied by
the environment. -/
def create (jobs : List JobRow) (freshId : Nat) (now : Nat) (title description : String)
    (budget : Int) (category : String) (skills : List String) (userId : Nat) : List JobRow :=
  jobs ++ [⟨freshId, title, description, budget, category, skills, "open", userId, now, now⟩]

/-- The partial update record `updatedData` built by
`jobController.updateJob`: a field is present exactly when the controller
assigned it. -/
structure UpdatedData where
  title : Option String
  description : Option String
  budget : Option Int
  category : Option String
  skills : Option (List String)
  status : Option String
  deriving DecidableEq, Repr

/-- Modelled from the spec: `jobModel.update` is not under `src/`; per the
spec the handler "applies the operation", embedded as overwriting exactly
the fields present in `updatedData` on the stored row. -/
def update (j : JobRow) (u : UpdatedData) : JobRow :=
  { j with
    title := u.title.getD j.title,
    description := u.description.getD j.description,
    budget := u.budget.getD j.budget,
    category := u.category.getD j.category,
    skills := u.skills.getD j.skills,
    status := u.status.getD j.status }

/-- `jobModel.update` applied to the stored table. -/
def updateIn (jobs : List JobRow) (jobId : Nat) (u : UpdatedData) : List JobRow :=
  jobs.map fun j => if j.id = jobId then update j u else j

/-- Modelled from the spec: `jobModel.delete` is not under `src/`; per the
spec deleting a Job removes it (and, via cascade, its comments and their
replies). -/
def del (db : DB) (jobId : Nat) : DB :=
  let deadComments := db.comments.filter (fun c => c.jobId = jobId)
  { db with
    jobs := db.jobs.filter (fun j => ¬ j.id = jobId),
    comments := db.comments.filter (fun c => ¬ c.jobId = jobId),
    replies := db.replies.filter
      (fun r => ¬ (deadComments.any (fun c => c.id = r.commentId))) }

end jobModel

namespace userModel

/-- Modelled from the spec: `userModel.findById` is not under `src/`;
embedded as looking up the first Users row with the given id. -/
def findById (users : List UserRow) (userId : Nat) : Option UserRow :=
  match users.filter (fun u => u.id = userId) with
  | [] => none
  | u :: _ => some u

end userModel

/-- JavaScript truthiness of an optional string field of a JSON body:
absent, or present and empty, is falsy. -/
def truthyS : Option String → Bool
  | none => false
  | some s => ¬ s = ""

/-- JavaScript truthiness of an optional numeric field: absent or zero is
falsy. -/
def truthyI : Option Int → Bool
  | none => false
  | some b => ¬ b = 0

/-- A request body for `createJob` / `updateJob`.  `budget` arrives as a
JSON number (embedded as `Int`; the controller's `parseFloat` on a number
is the identity); a JS array value for `skills` is always truthy, so its
truthiness is just presence. -/
structure JobBody where
  title : Option String
  description : Option String
  budget : Option Int
  category : Option String
  skills : Option (List String)
  status : Option String
  deriving DecidableEq, Repr

/-- The persistence calls a handler can issue. -/
inductive Mutation where
  | jobCreate
  | jobUpdate
  | jobDelete
  | commentDelete
  | replyDelete
  deriving DecidableEq, Repr

/-- What a handler run produces: the HTTP status of the response, the
database afterwards, and the persistence mutations it issued. -/
structure HResp where
  status : Nat
  db : DB
  mutations : List Mutation
  deriving DecidableEq, Repr

namespace jobController

/-- `jobController.createJob`: 400 when `title`, `description`, `budget`
or `category` is falsy, otherwise persist via `jobModel.create` (201). -/
def createJob (db : DB) (userId : Nat) (body : JobBody) (freshId now : Nat) : HResp :=
  if ¬ (truthyS body.title ∧ truthyS body.description ∧ truthyI body.budget
      ∧ truthyS body.category) then
    ⟨400, db, []⟩
  else
    ⟨201,
     { db with
       jobs := jobModel.create db.jobs freshId now (body.title.getD "")
         (body.description.getD "") (body.budget.getD 0) (body.category.getD "")
         (body.skills.getD []) userId },
     [.jobCreate]⟩

/-- The `updatedData` object built by `jobController.updateJob`:
`if (field) updatedData.field = field` for each of the six fields. -/
def mkUpdatedData (body : JobBody) : jobModel.UpdatedData :=
  { title := if truthyS body.title then body.title else none,
    description := if truthyS body.description then body.description else none,
    budget := if truthyI body.budget then body.budget else none,
    category := if truthyS body.category then body.category else none,
    skills := if body.skills.isSome then body.skills else none,
    status := if truthyS body.status then body.status else none }

/-- `jobController.updateJob`: 404 when the job is absent, 403 when the
caller is not the owner, otherwise apply `jobModel.update` (200). -/
def updateJob (db : DB) (userId jobId : Nat) (body : JobBody) : HResp :=
  match jobModel.findById db.jobs jobId with
  | none => ⟨404, db, []⟩
  | some job =>
      if ¬ job.userId = userId then ⟨403, db, []⟩
      else
        ⟨200, { db with jobs := jobModel.updateIn db.jobs jobId (mkUpdatedData body) },
         [.jobUpdate]⟩

/-- `jobController.deleteJob`: 404 when absent, 403 when the caller is not
the owner, otherwise `jobModel.delete` (200). -/
def deleteJob (db : DB) (userId jobId : Nat) : HResp :=
  match jobModel.findById db.jobs jobId with
  | none => ⟨404, db, []⟩
  | some job =>
      if ¬ job.userId = userId then ⟨403, db, []⟩
      else ⟨200, jobModel.del db jobId, [.jobDelete]⟩

/-- A reply as served by `getComments`, enriched with author info. -/
structure ReplyView where
  id : Nat
  content : String
  userId : Nat
  commentId : Nat
  createdAt : Nat
  updatedAt : Nat
  userName : String
  userPhoto : Option String
  deriving DecidableEq, Repr

/-- A comment as served by `getComments`, enriched with author info. -/
structure CommentView where
  id : Nat
  content : String
  userId : Nat
  jobId : Nat
  createdAt : Nat
  updatedAt : Nat
  userName : String
  userPhoto : Option String
  replies : List ReplyView
  deriving DecidableEq, Repr

/-- The user-info enrichment `getComments` applies to each reply. -/
def enrichReply (db : DB) (r : ReplyRow) : ReplyView :=
  match userModel.findById db.users r.userId with
  | some u => ⟨r.id, r.content, r.userId, r.commentId, r.createdAt, r.updatedAt, u.name, u.avatar⟩
  | none => ⟨r.id, r.content, r.userId, r.commentId, r.createdAt, r.updatedAt,
      "Usuario desconocido", none⟩

/-- The user-info enrichment `getComments` applies to each comment. -/
def enrichComment (db : DB) (c : CommentOut) : CommentView :=
  match userModel.findById db.users c.userId with
  | some u => ⟨c.id, c.content, c.userId, c.jobId, c.createdAt, c.updatedAt, u.name, u.avatar,
      c.replies.map (enrichReply db)⟩
  | none => ⟨c.id, c.content, c.userId, c.jobId, c.createdAt, c.updatedAt,
      "Usuario desconocido", none, c.replies.map (enrichReply db)⟩

/-- Response of `jobController.getComments`. -/
structure GetCommentsResp where
  status : Nat
  comments : List CommentView
  deriving DecidableEq, Repr

/-- `jobController.getComments`: 404 when the job is absent, otherwise the
enriched `commentModel.findByJobId` result (200). -/
def getComments (db : DB) (jobId : Nat) : GetCommentsResp :=
  match jobModel.findById db.jobs jobId with
  | none => ⟨404, []⟩
  | some _ => ⟨200, (commentModel.findByJobId db jobId).map (enrichComment db)⟩

/-- `jobController.deleteComment`: 404 when the comment is absent, 403
when the caller is not its author, otherwise `commentModel.delete` (200). -/
def deleteComment (db : DB) (userId commentId : Nat) : HResp :=
  match commentModel.findById db commentId with
  | none => ⟨404, db, []⟩
  | some comment =>
      if ¬ comment.userId = userId then ⟨403, db, []⟩
      else ⟨200, commentModel.del db commentId, [.commentDelete]⟩

/-- `jobController.deleteReply`: 404 when the reply is absent, 403 when
the caller is not its author, otherwise `commentModel.deleteReply` (200). -/
def deleteReply (db : DB) (userId replyId : Nat) : HResp :=
  match commentModel.findReplyById db replyId with
  | none => ⟨404, db, []⟩
  | some reply =>
      if ¬ reply.userId = userId then ⟨403, db, []⟩
      else ⟨200, commentModel.deleteReply db replyId, [.replyDelete]⟩

end jobController

/-- Outcome of a client-side HTTP call: a response payload, or a thrown
(network or non-2xx) error. -/
inductive HttpResult (α : Type) where
  | ok (data : α)
  | err (message : String)
  deriving DecidableEq, Repr

/-- The fields of the decoded JWT payload the client fallback reads. -/
structure TokenInfo where
  userId : Option Nat
  name : Option String
  photoURL : Option String
  deriving DecidableEq, Repr

/-- A comment object as the client sees it. -/
structure CommentClient where
  id : Nat
  userId : Nat
  jobId : Nat
  content : String
  text : String
  createdAt : Nat
  timestamp : Nat
  userName : String
  userPhoto : String
  replies : List Nat
  deriving DecidableEq, Repr

namespace jobService

/-- The locally fabricated comment `jobService.addComment` builds when the
server response carries no comment or the call throws: fresh uuid, current
timestamps, token-derived author info, empty replies. -/
def fallbackComment (jobId : Nat) (content : String) (freshId now : Nat)
    (userInfo : Option TokenInfo) : CommentClient :=
  { id := freshId,
    userId := (userInfo.bind (fun u => u.userId)).getD 0,
    jobId := jobId,
    content := content,
    text := content,
    createdAt := now,
    timestamp := now,
    userName := (userInfo.bind (fun u => u.name)).getD "Usuario",
    userPhoto := (userInfo.bind (fun u => u.photoURL)).getD "",
    replies := [] }

/-- `jobService.addComment`: returns the server's comment when
`response.data.comment` is present, and otherwise — including when the
HTTP call throws — returns a locally fabricated comment. -/
def addComment (jobId : Nat) (content : String)
    (resp : HttpResult (Option CommentClient)) (freshId now : Nat)
    (userInfo : Option TokenInfo) : CommentClient :=
  match resp with
  | .ok (some c) => c
  | .ok none => fallbackComment jobId content freshId now userInfo
  | .err _ => fallbackComment jobId content freshId now userInfo

/-- The `response.data` payload of the comment delete endpoint. -/
structure DeleteCommentData where
  success : Bool
  deriving DecidableEq, Repr

/-- `jobService.deleteComment`: `return response.data.success || true` on
success, `return true` in the catch branch. -/
def deleteComment (resp : HttpResult DeleteCommentData) : Bool :=
  match resp with
  | .ok data => data.success || true
  | .err _ => true

end jobService

/-!
### Auxiliary characterizations of the grouping loop

`groupRows` is characterized below (`groupRows_eq`) as: the comment
objects of the first-occurrence rows, in first-seen order, each carrying
the id-deduplicated list of replies its rows carry.
-/

/-- The first row of `rows` for each comment id, in first-seen order. -/
def firstRows (rows : List JoinRow) : List JoinRow :=
  rows.foldl (fun acc row => if acc.any (fun r => r.id = row.id) then acc else acc ++ [row]) []

/-- The comment ids of `rows` in first-seen order, without duplicates. -/
def firstSeenIds (rows : List JoinRow) : List Nat :=
  rows.foldl (fun acc row => if row.id ∈ acc then acc else acc ++ [row.id]) []

/-- The replies carried by the rows of comment id `i`, in row order. -/
def rowRepliesFor (i : Nat) (rows : List JoinRow) : List ReplyRow :=
  rows.filterMap (fun row => if row.id = i then row.reply else none)

/-- Keep the first reply of each reply id. -/
def dedupById (l : List ReplyRow) : List ReplyRow :=
  l.foldl (fun acc r => if acc.any (fun s => s.id = r.id) then acc else acc ++ [r]) []

/-- The grouped comment the loop ends up producing for the first row of a
comment id. -/
def buildComment (rows : List JoinRow) (row : JoinRow) : CommentOut :=
  { rowComment row with replies := dedupById (rowRepliesFor row.id rows) }

/-- Projection of a grouped comment to the data the ordering claims are
about: id, creation time, and the (id, creation time) of each reply. -/
def commentKey (c : CommentOut) : Nat × Nat × List (Nat × Nat) :=
  (c.id, c.createdAt, c.replies.map (fun r => (r.id, r.createdAt)))

/-- The same projection out of an enriched comment view. -/
def commentViewKey (c : jobController.CommentView) : Nat × Nat × List (Nat × Nat) :=
  (c.id, c.createdAt, c.replies.map (fun r => (r.id, r.createdAt)))

/-!
### Concrete data for scenarios and witnesses
-/

def userOwner : UserRow := ⟨10, "Owner", none⟩
def userOther : UserRow := ⟨11, "Other", none⟩
def jobJ : JobRow := ⟨1, "J", "desc", 500, "dev", ["ts"], "open", 10, 50, 50⟩
def commentA : CommentRow := ⟨1, "A", 10, 1, 100, 100⟩
def commentB : CommentRow := ⟨2, "B", 11, 1, 200, 200⟩
def replyR1 : ReplyRow := ⟨1, "R1", 11, 1, 110, 110⟩
def replyR2 : ReplyRow := ⟨2, "R2", 10, 1, 120, 120⟩

/-- Job J after Comment A then Comment B were added. -/
def dbAB : DB := ⟨[jobJ], [commentA, commentB], [], [userOwner, userOther]⟩

/-- Job J after additionally Reply R1 then Reply R2 were added to A. -/
def dbABR : DB := ⟨[jobJ], [commentA, commentB], [replyR1, replyR2], [userOwner, userOther]⟩

/-!
### Lemmas about the grouping loop
-/

theorem groupRows_append (l : List JoinRow) (row : JoinRow) :
    groupRows (l ++ [row]) = addRow (groupRows l) row := by
  simp [groupRows, List.foldl_append]

theorem firstRows_append (l : List JoinRow) (row : JoinRow) :
    firstRows (l ++ [row]) =
      if (firstRows l).any (fun r => r.id = row.id) then firstRows l
      else firstRows l ++ [row] := by
  simp [firstRows, List.foldl_append]

theorem dedupById_append (l : List ReplyRow) (r : ReplyRow) :
    dedupById (l ++ [r]) =
      if (dedupById l).any (fun s => s.id = r.id) then dedupById l
      else dedupById l ++ [r] := by
  simp [dedupById, List.foldl_append]

theorem rowRepliesFor_append (i : Nat) (l : List JoinRow) (row : JoinRow) :
    rowRepliesFor i (l ++ [row]) =
      rowRepliesFor i l ++ (if row.id = i then row.reply.toList else []) := by
  by_cases h : row.id = i <;> cases hr : row.reply <;>
    simp [rowRepliesFor, List.filterMap_append, List.filterMap, h, hr]

theorem firstRows_any (l : List JoinRow) (i : Nat) :
    (firstRows l).any (fun r => r.id = i) = l.any (fun r => r.id = i) := by
  induction l using List.reverseRecOn with
  | nil => simp [firstRows]
  | append_singleton l row ih =>
    rw [firstRows_append]
    cases h : (firstRows l).any (fun r => r.id = row.id) with
    | true =>
      simp only [if_true]
      by_cases hri : row.id = i
      · subst hri
        simp [List.any_append, ih, ih ▸ h]
      · simp [List.any_append, ih, hri]
    | false => simp [List.any_append, ih]

theorem rowRepliesFor_eq_nil (i : Nat) (l : List JoinRow)
    (h : l.any (fun r => r.id = i) = false) : rowRepliesFor i l = [] := by
  rw [List.any_eq_false] at h
  simp only [rowRepliesFor, List.filterMap_eq_nil_iff]
  intro a ha
  have ha2 := h a ha
  simp only [decide_eq_true_eq] at ha2
  simp [ha2]

theorem buildComment_reply_none (l : List JoinRow) (row : JoinRow)
    (hr : row.reply = none) (r0 : JoinRow) :
    buildComment (l ++ [row]) r0 = buildComment l r0 := by
  unfold buildComment
  rw [rowRepliesFor_append, hr]
  simp

theorem addRow_none (acc : List CommentOut) (row : JoinRow) (hr : row.reply = none) :
    addRow acc row =
      if acc.any (fun c => c.id = row.id) then acc else acc ++ [rowComment row] := by
  simp [addRow, hr]

theorem addRow_some (acc : List CommentOut) (row : JoinRow) (r : ReplyRow)
    (hr : row.reply = some r) :
    addRow acc row =
      (if acc.any (fun c => c.id = row.id) then acc else acc ++ [rowComment row]).map
        (fun c => if c.id = row.id then attachReply c r else c) := by
  simp [addRow, hr]

theorem any_id_map_buildComment (rows l : List JoinRow) (i : Nat) :
    (l.map (buildComment rows)).any (fun c => c.id = i) = l.any (fun r => r.id = i) := by
  induction l with
  | nil => rfl
  | cons x xs ih => simp [List.any_cons, ih, buildComment, rowComment]

/-- The grouping loop, characterized: the comment objects of the
first-occurrence rows in first-seen order, each carrying the
id-deduplicated replies of its rows. -/
theorem groupRows_eq (rows : List JoinRow) :
    groupRows rows = (firstRows rows).map (buildComment rows) := by
  induction rows using List.reverseRecOn with
  | nil => simp [groupRows, firstRows]
  | append_singleton l row ih =>
    rw [groupRows_append, ih, firstRows_append]
    cases h : (firstRows l).any (fun r => r.id = row.id) with
    | false =>
      have hl : l.any (fun r => r.id = row.id) = false := by rw [← firstRows_any, h]
      have hlrow : rowRepliesFor row.id l = [] := rowRepliesFor_eq_nil _ _ hl
      have hmemA : ∀ r0 ∈ firstRows l, ¬ r0.id = row.id := by
        intro r0 hr0
        simpa using List.any_eq_false.mp h r0 hr0
      simp only [Bool.false_eq_true, if_false]
      cases hr : row.reply with
      | none =>
        rw [addRow_none _ _ hr, any_id_map_buildComment, h]
        simp only [Bool.false_eq_true, if_false, List.map_append]
        congr 1
        · exact List.map_congr_left fun r0 _ => (buildComment_reply_none l row hr r0).symm
        · simp [buildComment, rowRepliesFor_append, hlrow, hr, rowComment, dedupById]
      | some r =>
        rw [addRow_some _ _ _ hr, any_id_map_buildComment, h]
        simp only [Bool.false_eq_true, if_false, List.map_append, List.map_map]
        congr 1
        · refine List.map_congr_left fun r0 hr0 => ?_
          have hne : ¬ r0.id = row.id := hmemA r0 hr0
          have hne2 : ¬ row.id = r0.id := fun hh => hne hh.symm
          simp [Function.comp, buildComment, rowComment, hne, rowRepliesFor_append, hne2]
        · simp [Function.comp, buildComment, rowComment, attachReply,
            rowRepliesFor_append, hlrow, hr, dedupById, dedupById_append]
    | true =>
      simp only [if_true]
      cases hr : row.reply with
      | none =>
        rw [addRow_none _ _ hr, any_id_map_buildComment, h]
        simp only [if_true]
        exact List.map_congr_left fun r0 _ => (buildComment_reply_none l row hr r0).symm
      | some r =>
        rw [addRow_some _ _ _ hr, any_id_map_buildComment, h]
        simp only [if_true, List.map_map]
        refine List.map_congr_left fun r0 hr0 => ?_
        by_cases hid : r0.id = row.id
        · have hid2 : row.id = r0.id := hid.symm
          have hbid : (buildComment l r0).id = row.id := by
            simp [buildComment, rowComment, hid]
          have hrr : rowRepliesFor r0.id (l ++ [row]) = rowRepliesFor r0.id l ++ [r] := by
            rw [rowRepliesFor_append, if_pos hid2, hr]
            rfl
          simp only [Function.comp]
          rw [if_pos hbid]
          unfold buildComment attachReply
          rw [hrr, dedupById_append]
          cases hany : (dedupById (rowRepliesFor r0.id l)).any (fun s => s.id = r.id) with
          | true => simp [hany]
          | false => simp [hany]
        · have hid2 : ¬ row.id = r0.id := fun hh => hid hh.symm
          have hbid : ¬ (buildComment l r0).id = row.id := by
            simp [buildComment, rowComment, hid]
          simp only [Function.comp]
          rw [if_neg hbid]
          simp [buildComment, rowRepliesFor_append, hid2]

theorem firstRows_sublist (l : List JoinRow) : List.Sublist (firstRows l) l := by
  induction l using List.reverseRecOn with
  | nil => simp [firstRows]
  | append_singleton l row ih =>
    rw [firstRows_append]
    cases h : (firstRows l).any (fun r => r.id = row.id) with
    | true => exact ih.trans (List.sublist_append_left l [row])
    | false => exact ih.append (List.Sublist.refl [row])

theorem dedupById_sublist (l : List ReplyRow) : List.Sublist (dedupById l) l := by
  induction l using List.reverseRecOn with
  | nil => simp [dedupById]
  | append_singleton l r ih =>
    rw [dedupById_append]
    cases h : (dedupById l).any (fun s => s.id = r.id) with
    | true => exact ih.trans (List.sublist_append_left l [r])
    | false => exact ih.append (List.Sublist.refl [r])

theorem firstRows_nodup_ids (l : List JoinRow) :
    ((firstRows l).map (fun r => r.id)).Nodup := by
  induction l using List.reverseRecOn with
  | nil => simp [firstRows]
  | append_singleton l row ih =>
    rw [firstRows_append]
    cases h : (firstRows l).any (fun r => r.id = row.id) with
    | true => exact ih
    | false =>
      have hnm : row.id ∉ (firstRows l).map (fun r => r.id) := by
        intro hmem
        rcases List.mem_map.mp hmem with ⟨r0, hr0, hid⟩
        exact absurd hid (by simpa using List.any_eq_false.mp h r0 hr0)
      simp [List.map_append, List.nodup_append, ih, hnm]

theorem dedupById_nodup_ids (l : List ReplyRow) :
    ((dedupById l).map (fun r => r.id)).Nodup := by
  induction l using List.reverseRecOn with
  | nil => simp [dedupById]
  | append_singleton l r ih =>
    rw [dedupById_append]
    cases h : (dedupById l).any (fun s => s.id = r.id) with
    | true => exact ih
    | false =>
      have hnm : r.id ∉ (dedupById l).map (fun s => s.id) := by
        intro hmem
        rcases List.mem_map.mp hmem with ⟨s0, hs0, hid⟩
        exact absurd hid (by simpa using List.any_eq_false.mp h s0 hs0)
      simp [List.map_append, List.nodup_append, ih, hnm]

theorem mem_firstRows_ids (l : List JoinRow) (i : Nat) :
    i ∈ (firstRows l).map (fun r => r.id) ↔ i ∈ l.map (fun r => r.id) := by
  have h := firstRows_any l i
  constructor
  · intro hm
    rcases List.mem_map.mp hm with ⟨r0, hr0, hid⟩
    have : (firstRows l).any (fun r => r.id = i) = true :=
      List.any_eq_true.mpr ⟨r0, hr0, by simp [hid]⟩
    rw [h] at this
    rcases List.any_eq_true.mp this with ⟨r1, hr1, hid1⟩
    exact List.mem_map.mpr ⟨r1, hr1, by simpa using hid1⟩
  · intro hm
    rcases List.mem_map.mp hm with ⟨r0, hr0, hid⟩
    have : l.any (fun r => r.id = i) = true :=
      List.any_eq_true.mpr ⟨r0, hr0, by simp [hid]⟩
    rw [← h] at this
    rcases List.any_eq_true.mp this with ⟨r1, hr1, hid1⟩
    exact List.mem_map.mpr ⟨r1, hr1, by simpa using hid1⟩

theorem mem_dedupById_iff (l : List ReplyRow)
    (huniq : ∀ a ∈ l, ∀ b ∈ l, a.id = b.id → a = b) (rep : ReplyRow) :
    rep ∈ dedupById l ↔ rep ∈ l := by
  constructor
  · exact fun hm => (dedupById_sublist l).mem hm
  · intro hm
    induction l using List.reverseRecOn with
    | nil => simp at hm
    | append_singleton l r ih =>
      have huniq1 : ∀ a ∈ l, ∀ b ∈ l, a.id = b.id → a = b := by
        intro a ha b hb
        exact huniq a (List.mem_append_left _ ha) b (List.mem_append_left _ hb)
      rw [dedupById_append]
      rcases List.mem_append.mp hm with hml | hmr
      · have hin : rep ∈ dedupById l := ih huniq1 hml
        cases h : (dedupById l).any (fun s => s.id = r.id) with
        | true => exact hin
        | false => exact List.mem_append_left _ hin
      · have hrep : rep = r := by simpa using hmr
        subst hrep
        cases h : (dedupById l).any (fun s => s.id = rep.id) with
        | true =>
          rcases List.any_eq_true.mp h with ⟨s0, hs0, hid⟩
          have hs0l : s0 ∈ l := (dedupById_sublist l).mem hs0
          have : s0 = rep := huniq s0 (List.mem_append_left _ hs0l) rep
            (List.mem_append_right _ (by simp)) (by simpa using hid)
          exact this ▸ hs0
        | false => exact List.mem_append_right _ (by simp)

theorem firstSeenIds_eq (l : List JoinRow) :
    (firstRows l).map (fun r => r.id) = firstSeenIds l := by
  induction l using List.reverseRecOn with
  | nil => simp [firstRows, firstSeenIds]
  | append_singleton l row ih =>
    have hfs : firstSeenIds (l ++ [row]) =
        if row.id ∈ firstSeenIds l then firstSeenIds l else firstSeenIds l ++ [row.id] := by
      simp [firstSeenIds, List.foldl_append]
    rw [firstRows_append, hfs, ← ih]
    cases h : (firstRows l).any (fun r => r.id = row.id) with
    | true =>
      rcases List.any_eq_true.mp h with ⟨r0, hr0, hid⟩
      have : row.id ∈ (firstRows l).map (fun r => r.id) :=
        List.mem_map.mpr ⟨r0, hr0, by simpa using hid⟩
      simp [this]
    | false =>
      have : row.id ∉ (firstRows l).map (fun r => r.id) := by
        intro hmem
        rcases List.mem_map.mp hmem with ⟨r0, hr0, hid⟩
        exact absurd hid (by simpa using List.any_eq_false.mp h r0 hr0)
      simp [this]

theorem mem_rowRepliesFor (i : Nat) (l : List JoinRow) (rep : ReplyRow) :
    rep ∈ rowRepliesFor i l ↔ ∃ row ∈ l, row.id = i ∧ row.reply = some rep := by
  simp only [rowRepliesFor, List.mem_filterMap]
  constructor
  · rintro ⟨row, hrow, hf⟩
    by_cases hid : row.id = i
    · exact ⟨row, hrow, hid, by simpa [hid] using hf⟩
    · simp [hid] at hf
  · rintro ⟨row, hrow, hid, hrep⟩
    exact ⟨row, hrow, by simp [hid, hrep]⟩

/-!
### Lemmas about the left join and its sort
-/

theorem joinRows_mem {cs : List CommentRow} {rs : List ReplyRow} {j : Nat}
    {row : JoinRow} (h : row ∈ joinRows cs rs j) :
    ∃ c ∈ cs, c.jobId = j ∧ row.id = c.id ∧ row.createdAt = c.createdAt ∧
      ∀ rep, row.reply = some rep → rep ∈ rs ∧ rep.commentId = c.id := by
  rcases List.mem_flatMap.mp h with ⟨c, hc, hrow⟩
  rcases List.mem_filter.mp hc with ⟨hcs, hcj⟩
  refine ⟨c, hcs, by simpa using hcj, ?_⟩
  unfold rowsFor at hrow
  cases hf : rs.filter (fun r => r.commentId = c.id) with
  | nil =>
    rw [hf] at hrow
    have : row = mkRow c none := by simpa using hrow
    subst this
    exact ⟨rfl, rfl, fun rep hrep => by simp [mkRow] at hrep⟩
  | cons x xs =>
    rw [hf] at hrow
    rcases List.mem_map.mp hrow with ⟨r, hr, hrw⟩
    subst hrw
    have hrf : r ∈ rs.filter (fun s => s.commentId = c.id) := hf ▸ hr
    rcases List.mem_filter.mp hrf with ⟨hrs, hrc⟩
    exact ⟨rfl, rfl, fun rep hrep => by
      have : rep = r := by simpa [mkRow] using hrep.symm
      subst this
      exact ⟨hrs, by simpa using hrc⟩⟩

theorem joinRows_exists_row {cs : List CommentRow} (rs : List ReplyRow) {j : Nat}
    {c : CommentRow} (hcs : c ∈ cs) (hcj : c.jobId = j) :
    ∃ row ∈ joinRows cs rs j, row.id = c.id := by
  have hcf : c ∈ cs.filter (fun c => c.jobId = j) :=
    List.mem_filter.mpr ⟨hcs, by simpa using hcj⟩
  unfold joinRows
  cases hf : rs.filter (fun r => r.commentId = c.id) with
  | nil =>
    refine ⟨mkRow c none, List.mem_flatMap.mpr ⟨c, hcf, ?_⟩, rfl⟩
    unfold rowsFor
    rw [hf]
    simp
  | cons x xs =>
    refine ⟨mkRow c (some x), List.mem_flatMap.mpr ⟨c, hcf, ?_⟩, rfl⟩
    unfold rowsFor
    rw [hf]
    exact List.mem_map.mpr ⟨x, by simp, rfl⟩

theorem joinRows_reply_row {cs : List CommentRow} {rs : List ReplyRow} {j : Nat}
    {c : CommentRow} {rep : ReplyRow} (hcs : c ∈ cs) (hcj : c.jobId = j)
    (hrs : rep ∈ rs) (hrc : rep.commentId = c.id) :
    mkRow c (some rep) ∈ joinRows cs rs j := by
  have hcf : c ∈ cs.filter (fun c => c.jobId = j) :=
    List.mem_filter.mpr ⟨hcs, by simpa using hcj⟩
  have hrf : rep ∈ rs.filter (fun r => r.commentId = c.id) :=
    List.mem_filter.mpr ⟨hrs, by simpa using hrc⟩
  refine List.mem_flatMap.mpr ⟨c, hcf, ?_⟩
  unfold rowsFor
  cases hf : rs.filter (fun r => r.commentId = c.id) with
  | nil => rw [hf] at hrf; simp at hrf
  | cons x xs => exact List.mem_map.mpr ⟨rep, hf ▸ hrf, rfl⟩

theorem sortedJoinRows_perm (db : DB) (jobId : Nat) :
    List.Perm (sortedJoinRows db jobId) (joinRows db.comments db.replies jobId) :=
  List.perm_insertionSort rowLE _

theorem sortedJoinRows_sorted (db : DB) (jobId : Nat) :
    List.Pairwise rowLE (sortedJoinRows db jobId) :=
  List.sorted_insertionSort rowLE _

theorem sortedJoinRows_mem {db : DB} {jobId : Nat} {row : JoinRow}
    (h : row ∈ sortedJoinRows db jobId) :
    ∃ c ∈ db.comments, c.jobId = jobId ∧ row.id = c.id ∧ row.createdAt = c.createdAt ∧
      ∀ rep, row.reply = some rep → rep ∈ db.replies ∧ rep.commentId = c.id :=
  joinRows_mem ((sortedJoinRows_perm db jobId).mem_iff.mp h)

/-- Coherence: two result rows with the same comment id come from the
same stored comment, so they carry the same creation time (needs the
primary-key property of comment ids). -/
theorem sortedJoinRows_coherent {db : DB} {jobId : Nat}
    (hc : (db.comments.map (fun c => c.id)).Nodup) :
    ∀ r1 ∈ sortedJoinRows db jobId, ∀ r2 ∈ sortedJoinRows db jobId,
      r1.id = r2.id → r1.createdAt = r2.createdAt := by
  intro r1 h1 r2 h2 hid
  rcases sortedJoinRows_mem h1 with ⟨c1, hc1, _, hid1, hcr1, _⟩
  rcases sortedJoinRows_mem h2 with ⟨c2, hc2, _, hid2, hcr2, _⟩
  have hceq : c1 = c2 :=
    List.inj_on_of_nodup_map hc hc1 hc2 (by rw [← hid1, ← hid2, hid])
  rw [hcr1, hcr2, hceq]

/-!
### Properties of `commentModel.findByJobId`
-/

theorem findByJobId_eq (db : DB) (jobId : Nat) :
    commentModel.findByJobId db jobId =
      (firstRows (sortedJoinRows db jobId)).map (buildComment (sortedJoinRows db jobId)) :=
  groupRows_eq _

theorem map_buildComment_ids (rows l : List JoinRow) :
    ((l.map (buildComment rows)).map (fun c => c.id)) = l.map (fun r => r.id) := by
  rw [List.map_map]
  exact List.map_congr_left fun r _ => rfl

theorem map_buildComment_createdAts (rows l : List JoinRow) :
    ((l.map (buildComment rows)).map (fun c => c.createdAt)) = l.map (fun r => r.createdAt) := by
  rw [List.map_map]
  exact List.map_congr_left fun r _ => rfl

theorem findByJobId_ids_nodup (db : DB) (jobId : Nat) :
    ((commentModel.findByJobId db jobId).map (fun c => c.id)).Nodup := by
  rw [findByJobId_eq, map_buildComment_ids]
  exact firstRows_nodup_ids _

theorem findByJobId_mem_ids (db : DB) (jobId i : Nat) :
    i ∈ (commentModel.findByJobId db jobId).map (fun c => c.id) ↔
      ∃ c ∈ db.comments, c.jobId = jobId ∧ c.id = i := by
  rw [findByJobId_eq, map_buildComment_ids, mem_firstRows_ids]
  constructor
  · intro hm
    rcases List.mem_map.mp hm with ⟨row, hrow, hid⟩
    rcases sortedJoinRows_mem hrow with ⟨c, hcs, hcj, hid2, _, _⟩
    exact ⟨c, hcs, hcj, by rw [← hid2, hid]⟩
  · rintro ⟨c, hcs, hcj, hid⟩
    rcases joinRows_exists_row db.replies hcs hcj with ⟨row, hrow, hid2⟩
    have hrow2 : row ∈ sortedJoinRows db jobId :=
      (sortedJoinRows_perm db jobId).mem_iff.mpr hrow
    exact List.mem_map.mpr ⟨row, hrow2, by rw [hid2, hid]⟩

theorem findByJobId_sorted_desc (db : DB) (jobId : Nat) :
    ((commentModel.findByJobId db jobId).map (fun c => c.createdAt)).Pairwise
      (fun a b => b ≤ a) := by
  rw [findByJobId_eq, map_buildComment_createdAts]
  have hrows : (sortedJoinRows db jobId).Pairwise
      (fun a b : JoinRow => b.createdAt ≤ a.createdAt) :=
    (sortedJoinRows_sorted db jobId).imp (fun hab => by
      rcases hab with h | ⟨h, _⟩
      · exact Nat.le_of_lt h
      · exact Nat.le_of_eq h.symm)
  exact List.pairwise_map.mpr (List.Pairwise.sublist (firstRows_sublist _) hrows)

theorem findByJobId_replies_eq {db : DB} {jobId : Nat} {c : CommentOut}
    (h : c ∈ commentModel.findByJobId db jobId) :
    c.replies = dedupById (rowRepliesFor c.id (sortedJoinRows db jobId)) := by
  rw [findByJobId_eq] at h
  rcases List.mem_map.mp h with ⟨row, _, hrw⟩
  subst hrw
  rfl

theorem findByJobId_replies_nodup (db : DB) (jobId : Nat) :
    ∀ c ∈ commentModel.findByJobId db jobId, ((c.replies.map (fun r => r.id)).Nodup) := by
  intro c hc
  rw [findByJobId_replies_eq hc]
  exact dedupById_nodup_ids _

theorem findByJobId_replies_sorted_asc {db : DB} (jobId : Nat)
    (hc : (db.comments.map (fun c => c.id)).Nodup) :
    ∀ c ∈ commentModel.findByJobId db jobId,
      ((c.replies.map (fun r => r.createdAt)).Pairwise (fun a b => a ≤ b)) := by
  intro c hcm
  rw [findByJobId_replies_eq hcm]
  refine List.pairwise_map.mpr ?_
  have hsub := dedupById_sublist (rowRepliesFor c.id (sortedJoinRows db jobId))
  refine List.Pairwise.sublist hsub ?_
  refine List.pairwise_filterMap.mpr ?_
  have hsorted := sortedJoinRows_sorted db jobId
  have hcoh := @sortedJoinRows_coherent db jobId hc
  refine (List.pairwise_iff_forall_sublist.mpr ?_)
  intro a b hab
  have hmem_a : a ∈ sortedJoinRows db jobId := hab.mem (by simp)
  have hmem_b : b ∈ sortedJoinRows db jobId := hab.mem (by simp)
  have hr := List.pairwise_iff_forall_sublist.mp hsorted hab
  intro x hx y hy
  have hax : a.id = c.id ∧ a.reply = some x := by
    by_cases hid : a.id = c.id
    · exact ⟨hid, by simpa [hid] using hx⟩
    · simp [hid] at hx
  have hby : b.id = c.id ∧ b.reply = some y := by
    by_cases hid : b.id = c.id
    · exact ⟨hid, by simpa [hid] using hy⟩
    · simp [hid] at hy
  have hce : a.createdAt = b.createdAt :=
    hcoh a hmem_a b hmem_b (by rw [hax.1, hby.1])
  rcases hr with hlt | ⟨_, hkey⟩
  · omega
  · rw [hax.2, hby.2] at hkey
    exact hkey

theorem findByJobId_reply_mem_forward {db : DB} {jobId : Nat} {c : CommentOut}
    (hcm : c ∈ commentModel.findByJobId db jobId) {rep : ReplyRow}
    (hrep : rep ∈ c.replies) : rep ∈ db.replies ∧ rep.commentId = c.id := by
  rw [findByJobId_replies_eq hcm] at hrep
  have hrepL := (dedupById_sublist _).mem hrep
  rcases (mem_rowRepliesFor _ _ _).mp hrepL with ⟨row, hrow, hid, hsome⟩
  rcases sortedJoinRows_mem hrow with ⟨c2, _, _, hid2, _, hreply⟩
  rcases hreply rep hsome with ⟨hin, hcid⟩
  exact ⟨hin, by rw [hcid, ← hid2, hid]⟩

theorem findByJobId_reply_mem {db : DB} {jobId : Nat}
    (hr : (db.replies.map (fun r => r.id)).Nodup) :
    ∀ c ∈ commentModel.findByJobId db jobId, ∀ rep,
      rep ∈ c.replies ↔ rep ∈ db.replies ∧ rep.commentId = c.id := by
  intro c hcm rep
  constructor
  · exact findByJobId_reply_mem_forward hcm
  · rintro ⟨hin, hcid⟩
    have hcidm : c.id ∈ (commentModel.findByJobId db jobId).map (fun c => c.id) :=
      List.mem_map.mpr ⟨c, hcm, rfl⟩
    rcases (findByJobId_mem_ids db jobId c.id).mp hcidm with ⟨c2, hc2, hcj2, hid2⟩
    have hjoin : mkRow c2 (some rep) ∈ joinRows db.comments db.replies jobId :=
      joinRows_reply_row hc2 hcj2 hin (by rw [hcid, ← hid2])
    have hsortedm : mkRow c2 (some rep) ∈ sortedJoinRows db jobId :=
      (sortedJoinRows_perm db jobId).mem_iff.mpr hjoin
    have hrepL : rep ∈ rowRepliesFor c.id (sortedJoinRows db jobId) :=
      (mem_rowRepliesFor _ _ _).mpr ⟨mkRow c2 (some rep), hsortedm, hid2, rfl⟩
    rw [findByJobId_replies_eq hcm]
    refine (mem_dedupById_iff _ ?_ rep).mpr hrepL
    intro a ha b hb hab
    rcases (mem_rowRepliesFor _ _ _).mp ha with ⟨rowa, hrowa, _, hsomea⟩
    rcases (mem_rowRepliesFor _ _ _).mp hb with ⟨rowb, hrowb, _, hsomeb⟩
    rcases sortedJoinRows_mem hrowa with ⟨_, _, _, _, _, hrepa⟩
    rcases sortedJoinRows_mem hrowb with ⟨_, _, _, _, _, hrepb⟩
    exact List.inj_on_of_nodup_map hr (hrepa a hsomea).1 (hrepb b hsomeb).1 hab

/-!
### The enrichment in `getComments` preserves ids and creation times
-/

theorem enrichReply_key (db : DB) (r : ReplyRow) :
    ((jobController.enrichReply db r).id, (jobController.enrichReply db r).createdAt)
      = (r.id, r.createdAt) := by
  unfold jobController.enrichReply
  cases userModel.findById db.users r.userId <;> rfl

theorem enrichComment_key (db : DB) (c : CommentOut) :
    commentViewKey (jobController.enrichComment db c) = commentKey c := by
  have hreplies : (c.replies.map (jobController.enrichReply db)).map
      (fun r => (r.id, r.createdAt)) = c.replies.map (fun r => (r.id, r.createdAt)) := by
    rw [List.map_map]
    exact List.map_congr_left fun r _ => enrichReply_key db r
  unfold commentViewKey commentKey jobController.enrichComment
  cases userModel.findById db.users c.userId <;>
    simpa using congrArg (fun L => (c.id, c.createdAt, L)) hreplies

theorem getComments_serves {db : DB} {jobId : Nat} {job : JobRow}
    (hj : jobModel.findById db.jobs jobId = some job) :
    (jobController.getComments db jobId).status = 200 ∧
    (jobController.getComments db jobId).comments.map commentViewKey =
      (commentModel.findByJobId db jobId).map commentKey := by
  unfold jobController.getComments
  rw [hj]
  refine ⟨rfl, ?_⟩
  rw [List.map_map]
  exact List.map_congr_left fun c _ => enrichComment_key db c

/-!
### Claim theorems
-/

/-- C1: for every job id, the comment aggregation served by `getComments`
returns exactly the comments of that job, each once, ordered by
descending creation time, each carrying exactly its replies ordered by
ascending creation time; the enrichment step preserves ids and the
orderings; and on the concrete scenario (Comment A then B on job J;
Reply R1 then R2 on A) the result is `[B, A]` with A carrying
`[R1, R2]`. -/
theorem comment_aggregation_correct (db : DB) (jobId : Nat)
    (hc : (db.comments.map (fun c => c.id)).Nodup)
    (hr : (db.replies.map (fun r => r.id)).Nodup) :
    (∀ i, i ∈ (commentModel.findByJobId db jobId).map (fun c => c.id) ↔
        ∃ c ∈ db.comments, c.jobId = jobId ∧ c.id = i)
    ∧ ((commentModel.findByJobId db jobId).map (fun c => c.id)).Nodup
    ∧ ((commentModel.findByJobId db jobId).map (fun c => c.createdAt)).Pairwise
        (fun a b => b ≤ a)
    ∧ (∀ c ∈ commentModel.findByJobId db jobId,
        ((c.replies.map (fun r => r.createdAt)).Pairwise (fun a b => a ≤ b))
        ∧ ∀ rep, rep ∈ c.replies ↔ rep ∈ db.replies ∧ rep.commentId = c.id)
    ∧ (∀ job, jobModel.findById db.jobs jobId = some job →
        (jobController.getComments db jobId).status = 200 ∧
        (jobController.getComments db jobId).comments.map commentViewKey =
          (commentModel.findByJobId db jobId).map commentKey)
    ∧ commentModel.findByJobId dbAB 1 =
        [⟨2, "B", 11, 1, 200, 200, []⟩, ⟨1, "A", 10, 1, 100, 100, []⟩]
    ∧ commentModel.findByJobId dbABR 1 =
        [⟨2, "B", 11, 1, 200, 200, []⟩, ⟨1, "A", 10, 1, 100, 100, [replyR1, replyR2]⟩] := by
  refine ⟨findByJobId_mem_ids db jobId, findByJobId_ids_nodup db jobId,
    findByJobId_sorted_desc db jobId, ?_, fun job hj => getComments_serves hj,
    by decide, by decide⟩
  intro c hcm
  exact ⟨findByJobId_replies_sorted_asc jobId hc c hcm,
    findByJobId_reply_mem hr c hcm⟩

theorem comment_aggregation_correct_witness :
    ((dbABR.comments.map (fun c => c.id)).Nodup
      ∧ (dbABR.replies.map (fun r => r.id)).Nodup)
    ∧ commentModel.findByJobId dbABR 1 =
        [⟨2, "B", 11, 1, 200, 200, []⟩, ⟨1, "A", 10, 1, 100, 100, [replyR1, replyR2]⟩] :=
  ⟨⟨by decide, by decide⟩,
    (comment_aggregation_correct dbABR 1 (by decide) (by decide)).2.2.2.2.2.2⟩

/-- C3: on a persistence error the `catch` branch of
`commentModel.findByJobId` returns `[]`, exactly what a successful fetch
returns for a job without comments, so the two are indistinguishable to
the caller. -/
theorem findByJobId_swallows_errors :
    (∀ e, commentModel.findByJobIdRun (.err e) = [])
    ∧ ∀ e db jobId, (∀ c ∈ db.comments, ¬ c.jobId = jobId) →
        commentModel.findByJobIdRun (.err e) = commentModel.findByJobId db jobId := by
  refine ⟨fun e => rfl, fun e db jobId h => ?_⟩
  have hfilter : db.comments.filter (fun c => c.jobId = jobId) = [] :=
    List.filter_eq_nil_iff.mpr fun c hc => by simpa using h c hc
  unfold commentModel.findByJobId commentModel.findByJobIdRun sortedJoinRows joinRows
  rw [hfilter]
  rfl

theorem findByJobId_swallows_errors_witness :
    (∀ c ∈ dbAB.comments, ¬ c.jobId = 2)
    ∧ commentModel.findByJobIdRun (.err "db down") = commentModel.findByJobId dbAB 2 :=
  ⟨by decide, findByJobId_swallows_errors.2 "db down" dbAB 2 (by decide)⟩

/-- C4: for every row sequence, including duplicate rows, the grouping
loop yields each comment id exactly once in first-seen order, the comment
object built from the first row of its id with the deduplicated replies
of its rows, and every replies list has pairwise-distinct reply ids. -/
theorem grouping_loop_first_seen (rows : List JoinRow) :
    groupRows rows = (firstRows rows).map (buildComment rows)
    ∧ (groupRows rows).map (fun c => c.id) = firstSeenIds rows
    ∧ ((groupRows rows).map (fun c => c.id)).Nodup
    ∧ ∀ c ∈ groupRows rows, ((c.replies.map (fun r => r.id)).Nodup) := by
  refine ⟨groupRows_eq rows, ?_, ?_, ?_⟩
  · rw [groupRows_eq, map_buildComment_ids, firstSeenIds_eq]
  · rw [groupRows_eq, map_buildComment_ids]
    exact firstRows_nodup_ids _
  · intro c hc
    rw [groupRows_eq] at hc
    rcases List.mem_map.mp hc with ⟨row, _, hrw⟩
    subst hrw
    exact dedupById_nodup_ids _

theorem grouping_loop_first_seen_witness :
    (⟨1, "A", 10, 1, 100, 100, [replyR1]⟩ : CommentOut) ∈
      groupRows [mkRow ⟨1, "A", 10, 1, 100, 100⟩ (some replyR1),
        mkRow ⟨1, "A", 10, 1, 100, 100⟩ (some replyR1)]
    ∧ (((⟨1, "A", 10, 1, 100, 100, [replyR1]⟩ : CommentOut).replies.map
        (fun r => r.id)).Nodup) :=
  ⟨by decide,
    (grouping_loop_first_seen [mkRow ⟨1, "A", 10, 1, 100, 100⟩ (some replyR1),
      mkRow ⟨1, "A", 10, 1, 100, 100⟩ (some replyR1)]).2.2.2 _ (by decide)⟩

/-- C6: `commentModel.delete` removes the comment and all of its replies,
and a subsequent `findByJobId` for any job contains neither the deleted
comment nor any reply attached to it. -/
theorem delete_comment_cascades (db : DB) (commentId : Nat) :
    (∀ c ∈ (commentModel.del db commentId).comments, ¬ c.id = commentId)
    ∧ (∀ r ∈ (commentModel.del db commentId).replies, ¬ r.commentId = commentId)
    ∧ ∀ jobId, ∀ c ∈ commentModel.findByJobId (commentModel.del db commentId) jobId,
        ¬ c.id = commentId ∧ ∀ rep ∈ c.replies, ¬ rep.commentId = commentId := by
  have hcomments : ∀ c ∈ (commentModel.del db commentId).comments, ¬ c.id = commentId := by
    intro c hc
    have := (List.mem_filter.mp hc).2
    simpa using this
  have hreplies : ∀ r ∈ (commentModel.del db commentId).replies, ¬ r.commentId = commentId := by
    intro r hrm
    have := (List.mem_filter.mp hrm).2
    simpa using this
  refine ⟨hcomments, hreplies, fun jobId c hcm => ⟨?_, ?_⟩⟩
  · have hcid : c.id ∈ (commentModel.findByJobId (commentModel.del db commentId) jobId).map
        (fun c => c.id) := List.mem_map.mpr ⟨c, hcm, rfl⟩
    rcases (findByJobId_mem_ids _ jobId c.id).mp hcid with ⟨c2, hc2, _, hid2⟩
    exact fun h => hcomments c2 hc2 (by rw [hid2, h])
  · intro rep hrep
    rcases findByJobId_reply_mem_forward hcm hrep with ⟨hin, _⟩
    exact hreplies rep hin

theorem delete_comment_cascades_witness :
    (⟨2, "B", 11, 1, 200, 200, []⟩ : CommentOut) ∈
      commentModel.findByJobId (commentModel.del dbABR 1) 1
    ∧ ¬ (2 : Nat) = 1 :=
  ⟨by decide,
    ((delete_comment_cascades dbABR 1).2.2 1 ⟨2, "B", 11, 1, 200, 200, []⟩ (by decide)).1⟩

/-- C2: a caller who is not the owner/author receives 403 from the Job
update/delete and Comment/Reply delete handlers, the database is returned
unchanged, and no persistence mutation is issued. -/
theorem non_owner_gets_403 (db : DB) (uid jobId commentId replyId : Nat) (body : JobBody)
    (job : JobRow) (hj : jobModel.findById db.jobs jobId = some job)
    (hju : ¬ job.userId = uid)
    (cmt : CommentOut) (hc : commentModel.findById db commentId = some cmt)
    (hcu : ¬ cmt.userId = uid)
    (rep : ReplyRow) (hr : commentModel.findReplyById db replyId = some rep)
    (hru : ¬ rep.userId = uid) :
    jobController.updateJob db uid jobId body = ⟨403, db, []⟩
    ∧ jobController.deleteJob db uid jobId = ⟨403, db, []⟩
    ∧ jobController.deleteComment db uid commentId = ⟨403, db, []⟩
    ∧ jobController.deleteReply db uid replyId = ⟨403, db, []⟩ := by
  unfold jobController.updateJob jobController.deleteJob jobController.deleteComment
    jobController.deleteReply
  rw [hj, hc, hr]
  simp [hju, hcu, hru]

theorem non_owner_gets_403_witness :
    (jobModel.findById dbABR.jobs 1 = some jobJ ∧ ¬ jobJ.userId = 99)
    ∧ jobController.deleteJob dbABR 99 1 = ⟨403, dbABR, []⟩ :=
  ⟨⟨by decide, by decide⟩,
    (non_owner_gets_403 dbABR 99 1 1 1 ⟨none, none, none, none, none, none⟩
      jobJ (by decide) (by decide)
      ⟨1, "A", 10, 1, 100, 100, [replyR1, replyR2]⟩ (by decide) (by decide)
      replyR1 (by decide) (by decide)).2.1⟩

/-- C7: every Job/Comment/Reply update or delete handler follows the
three-step guard: 404 when the entity is absent (no ownership check can
happen), 403 on owner mismatch with no change, and otherwise it applies
the operation. -/
theorem guard_three_step (db : DB) (uid jobId commentId replyId : Nat) (body : JobBody) :
    (jobModel.findById db.jobs jobId = none →
        jobController.updateJob db uid jobId body = ⟨404, db, []⟩
        ∧ jobController.deleteJob db uid jobId = ⟨404, db, []⟩)
    ∧ (∀ job, jobModel.findById db.jobs jobId = some job →
        (¬ job.userId = uid →
            jobController.updateJob db uid jobId body = ⟨403, db, []⟩
            ∧ jobController.deleteJob db uid jobId = ⟨403, db, []⟩)
        ∧ (job.userId = uid →
            jobController.updateJob db uid jobId body =
              ⟨200, { db with jobs := jobModel.updateIn db.jobs jobId (jobController.mkUpdatedData body) }, [.jobUpdate]⟩
            ∧ jobController.deleteJob db uid jobId =
              ⟨200, jobModel.del db jobId, [.jobDelete]⟩))
    ∧ (commentModel.findById db commentId = none →
        jobController.deleteComment db uid commentId = ⟨404, db, []⟩)
    ∧ (∀ cmt, commentModel.findById db commentId = some cmt →
        (¬ cmt.userId = uid →
            jobController.deleteComment db uid commentId = ⟨403, db, []⟩)
        ∧ (cmt.userId = uid →
            jobController.deleteComment db uid commentId =
              ⟨200, commentModel.del db commentId, [.commentDelete]⟩))
    ∧ (commentModel.findReplyById db replyId = none →
        jobController.deleteReply db uid replyId = ⟨404, db, []⟩)
    ∧ (∀ rep, commentModel.findReplyById db replyId = some rep →
        (¬ rep.userId = uid →
            jobController.deleteReply db uid replyId = ⟨403, db, []⟩)
        ∧ (rep.userId = uid →
            jobController.deleteReply db uid replyId =
              ⟨200, commentModel.deleteReply db replyId, [.replyDelete]⟩)) := by
  refine ⟨fun h => ?_, fun job h => ⟨fun hu => ?_, fun hu => ?_⟩,
    fun h => ?_, fun cmt h => ⟨fun hu => ?_, fun hu => ?_⟩,
    fun h => ?_, fun rep h => ⟨fun hu => ?_, fun hu => ?_⟩⟩
  all_goals
    simp only [jobController.updateJob, jobController.deleteJob,
      jobController.deleteComment, jobController.deleteReply]
    rw [h]
    try simp_all

theorem guard_three_step_witness :
    (jobModel.findById dbABR.jobs 5 = none
      ∧ jobController.deleteJob dbABR 99 5 = ⟨404, dbABR, []⟩)
    ∧ (jobJ.userId = 10
      ∧ jobController.deleteJob dbABR 10 1 = ⟨200, jobModel.del dbABR 1, [.jobDelete]⟩) :=
  ⟨⟨by decide,
      ((guard_three_step dbABR 99 5 1 1 ⟨none, none, none, none, none, none⟩).1 (by decide)).2⟩,
   ⟨by decide,
      (((guard_three_step dbABR 10 1 1 1 ⟨none, none, none, none, none, none⟩).2.1
        jobJ (by decide)).2 (by decide)).2⟩⟩

/-- C5: a job-creation request missing `title`, `description`, `budget`
or `category` is answered 400, the database is unchanged, and no create
call is issued. -/
theorem create_job_validation (db : DB) (uid : Nat) (body : JobBody) (freshId now : Nat)
    (h : body.title = none ∨ body.description = none ∨ body.budget = none
      ∨ body.category = none) :
    jobController.createJob db uid body freshId now = ⟨400, db, []⟩ := by
  unfold jobController.createJob
  rcases h with h | h | h | h <;> simp [truthyS, truthyI, h]

theorem create_job_validation_witness :
    ((⟨some "t", some "d", none, some "c", none, none⟩ : JobBody).budget = none)
    ∧ jobController.createJob dbAB 10 ⟨some "t", some "d", none, some "c", none, none⟩ 7 300
      = ⟨400, dbAB, []⟩ :=
  ⟨rfl, create_job_validation dbAB 10 _ 7 300 (Or.inr (Or.inr (Or.inl rfl)))⟩

/-- C10: the job update applies exactly the truthy fields of the request
body: a falsy field (absent, empty string, budget 0, absent skills) is
excluded from `updatedData` and left unchanged on the stored row, a
truthy field overwrites it, and the fields outside the six (id, owner,
creation and update times) are never modified. -/
theorem update_applies_truthy_fields (j : JobRow) (body : JobBody) :
    (jobModel.update j (jobController.mkUpdatedData body)).id = j.id
    ∧ (jobModel.update j (jobController.mkUpdatedData body)).userId = j.userId
    ∧ (jobModel.update j (jobController.mkUpdatedData body)).createdAt = j.createdAt
    ∧ (jobModel.update j (jobController.mkUpdatedData body)).updatedAt = j.updatedAt
    ∧ (truthyS body.title = false →
        (jobModel.update j (jobController.mkUpdatedData body)).title = j.title)
    ∧ (∀ t, body.title = some t → ¬ t = "" →
        (jobModel.update j (jobController.mkUpdatedData body)).title = t)
    ∧ (truthyS body.description = false →
        (jobModel.update j (jobController.mkUpdatedData body)).description = j.description)
    ∧ (∀ t, body.description = some t → ¬ t = "" →
        (jobModel.update j (jobController.mkUpdatedData body)).description = t)
    ∧ (truthyI body.budget = false →
        (jobModel.update j (jobController.mkUpdatedData body)).budget = j.budget)
    ∧ (∀ b, body.budget = some b → ¬ b = 0 →
        (jobModel.update j (jobController.mkUpdatedData body)).budget = b)
    ∧ (truthyS body.category = false →
        (jobModel.update j (jobController.mkUpdatedData body)).category = j.category)
    ∧ (∀ t, body.category = some t → ¬ t = "" →
        (jobModel.update j (jobController.mkUpdatedData body)).category = t)
    ∧ (body.skills = none →
        (jobModel.update j (jobController.mkUpdatedData body)).skills = j.skills)
    ∧ (∀ s, body.skills = some s →
        (jobModel.update j (jobController.mkUpdatedData body)).skills = s)
    ∧ (truthyS body.status = false →
        (jobModel.update j (jobController.mkUpdatedData body)).status = j.status)
    ∧ (∀ t, body.status = some t → ¬ t = "" →
        (jobModel.update j (jobController.mkUpdatedData body)).status = t) := by
  refine ⟨rfl, rfl, rfl, rfl, fun h => ?_, fun t ht hne => ?_, fun h => ?_,
    fun t ht hne => ?_, fun h => ?_, fun b hb hne => ?_, fun h => ?_,
    fun t ht hne => ?_, fun h => ?_, fun s hs => ?_, fun h => ?_, fun t ht hne => ?_⟩ <;>
    simp_all [jobModel.update, jobController.mkUpdatedData, truthyS, truthyI]

theorem update_applies_truthy_fields_witness :
    (truthyS ((⟨some "", some "nd", some 0, none, some [], some "closed"⟩ : JobBody)).title
      = false)
    ∧ (jobModel.update jobJ (jobController.mkUpdatedData
        ⟨some "", some "nd", some 0, none, some [], some "closed"⟩)).title = jobJ.title :=
  ⟨by decide,
    (update_applies_truthy_fields jobJ
      ⟨some "", some "nd", some 0, none, some [], some "closed"⟩).2.2.2.2.1 (by decide)⟩

/-- C8: the client-side `jobService.deleteComment` returns `true` on every
outcome of the HTTP call, including the catch branch, so a failed
deletion is not observable from its result. -/
theorem client_delete_comment_always_true (resp : HttpResult jobService.DeleteCommentData) :
    jobService.deleteComment resp = true := by
  cases resp with
  | ok d => simp [jobService.deleteComment]
  | err _ => rfl

/-- C9: the client-side `jobService.addComment` never rejects: when the
call throws or the response carries no comment it returns the locally
fabricated comment, which has the fresh id, the current time as both
timestamps, the request content, and an empty replies list — so a
returned comment does not imply server-side persistence. -/
theorem client_add_comment_fabricates (jobId : Nat) (content : String)
    (freshId now : Nat) (userInfo : Option TokenInfo) :
    (∀ e, jobService.addComment jobId content (.err e) freshId now userInfo =
        jobService.fallbackComment jobId content freshId now userInfo)
    ∧ jobService.addComment jobId content (.ok none) freshId now userInfo =
        jobService.fallbackComment jobId content freshId now userInfo
    ∧ (jobService.fallbackComment jobId content freshId now userInfo).id = freshId
    ∧ (jobService.fallbackComment jobId content freshId now userInfo).createdAt = now
    ∧ (jobService.fallbackComment jobId content freshId now userInfo).timestamp = now
    ∧ (jobService.fallbackComment jobId content freshId now userInfo).replies = []
    ∧ (jobService.fallbackComment jobId content freshId now userInfo).content = content :=
  ⟨fun _ => rfl, rfl, rfl, rfl, rfl, rfl, rfl⟩
